import Mathlib

/-!
Verification of the Gensim demonstration notebook: the TF-IDF / similarity
flow over the nine-document toy corpus, and the word-embedding query flow.
The notebook only calls into the gensim library, so the library operations
(TfidfModel, SparseMatrixSimilarity, most_similar, similarity, doesnt_match)
are modelled from the specification; the toy corpus, the query vector and
every call made by the notebook are embedded verbatim.
-/

namespace GensimNB

/-- A sparse document vector: ordered (feature-id, raw weight) pairs, as in
the toy corpus of the notebook. -/
abbrev SparseQ := List (ℕ × ℚ)

/-- A sparse vector with real-valued weights (after TF-IDF weighting). -/
abbrev SparseR := List (ℕ × ℝ)

/-- The nine-document toy corpus defined in the notebook cell
`corpus = [[(0, 1.0), (1, 1.0), (2, 1.0)], ...]`. -/
def corpus : List SparseQ :=
  [[(0, 1), (1, 1), (2, 1)],
   [(2, 1), (3, 1), (4, 1), (5, 1), (6, 1), (8, 1)],
   [(1, 1), (3, 1), (4, 1), (7, 1)],
   [(0, 1), (4, 2), (7, 1)],
   [(3, 1), (5, 1), (6, 1)],
   [(9, 1)],
   [(9, 1), (10, 1)],
   [(9, 1), (10, 1), (11, 1)],
   [(8, 1), (10, 1), (11, 1)]]

/-- The query vector `vec = [(0, 1), (4, 1)]` from the notebook. -/
def queryVec : SparseQ := [(0, 1), (4, 1)]

/-- Whether sparse document `d` contains feature-id `f`. -/
def containsFeature (d : SparseQ) (f : ℕ) : Bool :=
  d.any fun p => p.1 == f

/-- Document frequency of feature `f`: the number of documents of the corpus
`c` containing `f` at least once. -/
def docFreq (c : List SparseQ) (f : ℕ) : ℕ :=
  (c.filter fun d => containsFeature d f).length

/-- Modelled from the spec: gensim's `TfidfModel.__getitem__` is not under
`src/`.  Raw inverse-document-frequency weighting: each (feature-id,
raw-count) pair maps to `raw_count * log(numDocs / docFreq feature)`;
feature-ids with zero corpus-wide document frequency are never emitted.  The
logarithm `lg` is kept abstract because the spec declares the log base
implementation-defined (only consistency is required). -/
noncomputable def tfidfWeights (lg : ℝ → ℝ) (numDocs : ℕ) (df : ℕ → ℕ)
    (doc : SparseQ) : SparseR :=
  (doc.filter fun p => df p.1 != 0).map
    fun p => (p.1, (p.2 : ℝ) * lg ((numDocs : ℝ) / (df p.1 : ℝ)))

/-- Squared Euclidean norm of a sparse weight list. -/
noncomputable def l2normSq (v : SparseR) : ℝ :=
  (v.map fun p => p.2 ^ 2).sum

/-- Modelled from the spec: the full TF-IDF transform — raw IDF weights
followed by L2 normalization so the result has Euclidean norm 1. -/
noncomputable def tfidfTransform (lg : ℝ → ℝ) (numDocs : ℕ) (df : ℕ → ℕ)
    (doc : SparseQ) : SparseR :=
  (tfidfWeights lg numDocs df doc).map
    fun p => (p.1, p.2 / Real.sqrt (l2normSq (tfidfWeights lg numDocs df doc)))

/-- Value of sparse vector `v` at feature `f` (sum of matching entries;
an absent feature-id implicitly carries 0). -/
noncomputable def getVal (v : SparseR) (f : ℕ) : ℝ :=
  ((v.filter fun p => p.1 == f).map Prod.snd).sum

/-- Dot product of two sparse vectors. -/
noncomputable def dotS (u v : SparseR) : ℝ :=
  (u.map fun p => p.2 * getVal v p.1).sum

/-- Cosine similarity of two sparse vectors: dot product over the product of
Euclidean norms. -/
noncomputable def cosineSim (u v : SparseR) : ℝ :=
  dotS u v / (Real.sqrt (dotS u u) * Real.sqrt (dotS v v))

/-- Modelled from the spec: gensim's `SparseMatrixSimilarity` is not under
`src/`.  The index stores the (already TF-IDF-transformed) document vectors
and the declared feature dimensionality. -/
structure SparseMatrixSimilarity where
  docs : List SparseR
  numFeatures : ℕ

/-- Modelled from the spec: scoring a query against the index returns one
cosine-similarity score per indexed document, in construction order. -/
noncomputable def simScores (idx : SparseMatrixSimilarity) (q : SparseR) :
    List ℝ :=
  idx.docs.map fun d => cosineSim q d

/-- Scoring as a state-passing operation: it returns the scores together with
the (unchanged) index, making the frame property explicit. -/
noncomputable def scoreQuery (idx : SparseMatrixSimilarity) (q : SparseR) :
    List ℝ × SparseMatrixSimilarity :=
  (simScores idx q, idx)

/-- Running a whole sequence of queries, threading the index state through. -/
noncomputable def runQueries (idx : SparseMatrixSimilarity) :
    List SparseR → List (List ℝ) × SparseMatrixSimilarity
  | [] => ([], idx)
  | q :: qs =>
      let step := scoreQuery idx q
      let rest := runQueries step.2 qs
      (step.1 :: rest.1, rest.2)

/-- Whether documents `d` and `q` share a feature-id that is nonzero in both
(an absent feature-id implicitly carries weight 0). -/
def sharesNonzeroFeature (d q : SparseQ) : Prop :=
  ∃ p ∈ d, p.2 ≠ 0 ∧ ∃ r ∈ q, r.1 = p.1 ∧ r.2 ≠ 0

instance (d q : SparseQ) : Decidable (sharesNonzeroFeature d q) := by
  unfold sharesNonzeroFeature
  infer_instance

/-- The TF-IDF transform at the notebook's corpus statistics (9 documents). -/
noncomputable def notebookTfidf (lg : ℝ → ℝ) (doc : SparseQ) : SparseR :=
  tfidfTransform lg 9 (docFreq corpus) doc

/-- The similarity index the notebook builds:
`similarities.SparseMatrixSimilarity(tfidf[corpus], num_features=12)`. -/
noncomputable def notebookIndex (lg : ℝ → ℝ) : SparseMatrixSimilarity :=
  ⟨corpus.map (notebookTfidf lg), 12⟩

/-- The notebook's query `sims = index[tfidf[vec]]`. -/
noncomputable def notebookScores (lg : ℝ → ℝ) : List ℝ :=
  simScores (notebookIndex lg) (notebookTfidf lg queryVec)

/-! ## The embedding query flow

The pre-trained word→vector table is loaded from an external binary artifact;
here it is an association list parameter.  All query operations below are
modelled from the spec, since gensim's `KeyedVectors` is not under `src/`. -/

/-- A loaded word-vector table: word token → dense real vector. -/
abbrev WordTable := List (String × List ℝ)

/-- All words of the table (its vocabulary), in table order. -/
def keysOf (t : WordTable) : List String :=
  t.map Prod.fst

/-- Modelled from the spec: `wv.__getitem__` / `vector_of` — returns the
dense vector for `word`, or a key-not-found failure (`none`) when absent. -/
def vector_of (t : WordTable) (w : String) : Option (List ℝ) :=
  t.lookup w

/-- Pointwise sum of two dense vectors. -/
noncomputable def vadd (u v : List ℝ) : List ℝ :=
  List.zipWith (fun a b => a + b) u v

/-- Pointwise negation of a dense vector. -/
noncomputable def vneg (v : List ℝ) : List ℝ :=
  v.map fun a => -a

/-- Sum of a list of dense vectors (empty list gives the empty vector). -/
noncomputable def vsum : List (List ℝ) → List ℝ
  | [] => []
  | v :: vs => vs.foldl vadd v

/-- Mean of a list of dense vectors. -/
noncomputable def vmean (vs : List (List ℝ)) : List ℝ :=
  (vsum vs).map fun a => a / (vs.length : ℝ)

/-- Dot product of dense vectors. -/
noncomputable def ddot (u v : List ℝ) : ℝ :=
  (List.zipWith (fun a b => a * b) u v).sum

/-- Cosine similarity of dense vectors. -/
noncomputable def cosineD (u v : List ℝ) : ℝ :=
  ddot u v / (Real.sqrt (ddot u u) * Real.sqrt (ddot v v))

/-- Modelled from the spec: `wv.similarity` — cosine similarity of the two
words' vectors; a missing word is a key-not-found failure. -/
noncomputable def similarity (t : WordTable) (a b : String) : Option ℝ := do
  let va ← vector_of t a
  let vb ← vector_of t b
  pure (cosineD va vb)

/-- The combined analogy vector: sum of positive-word vectors minus the sum
of negative-word vectors (cosine similarity is scale-invariant, so the
spec's optional normalization of this vector does not affect any result). -/
noncomputable def combineVec (pvs nvs : List (List ℝ)) : List ℝ :=
  vsum (pvs ++ nvs.map vneg)

/-- Descending order on scored words (later score ≤ earlier score). -/
def descOn (a b : String × ℝ) : Prop :=
  b.2 ≤ a.2

/-- Ascending order on scored words. -/
def ascOn (a b : String × ℝ) : Prop :=
  a.2 ≤ b.2

noncomputable instance : DecidableRel descOn :=
  fun a b => inferInstanceAs (Decidable (b.2 ≤ a.2))

instance : IsTotal (String × ℝ) descOn :=
  ⟨fun a b => le_total b.2 a.2⟩

instance : IsTrans (String × ℝ) descOn :=
  ⟨fun _ _ _ h1 h2 => le_trans h2 h1⟩

noncomputable instance : DecidableRel ascOn :=
  fun a b => inferInstanceAs (Decidable (a.2 ≤ b.2))

instance : IsTotal (String × ℝ) ascOn :=
  ⟨fun a b => le_total a.2 b.2⟩

instance : IsTrans (String × ℝ) ascOn :=
  ⟨fun _ _ _ h1 h2 => le_trans h1 h2⟩

/-- Score every vocabulary word outside `exclude` and sort descending by
score (ties broken by the underlying stable sort — implementation-defined
per the spec). -/
noncomputable def rankBy (t : WordTable) (exclude : List String)
    (score : List ℝ → ℝ) : List (String × ℝ) :=
  List.insertionSort descOn
    ((t.filter fun p => !(exclude.contains p.1)).map fun p => (p.1, score p.2))

/-- Modelled from the spec: `wv.most_similar` — additive analogy arithmetic:
ranks all vocabulary words excluding the inputs by cosine similarity to the
combined vector and keeps the best `topn`. -/
noncomputable def most_similar (t : WordTable) (pos neg : List String)
    (topn : ℕ) : Option (List (String × ℝ)) := do
  let pvs ← pos.mapM (vector_of t)
  let nvs ← neg.mapM (vector_of t)
  pure ((rankBy t (pos ++ neg) fun v => cosineD (combineVec pvs nvs) v).take topn)

/-- The library-defined default result count used when `topn` is unset. -/
def default_topn : ℕ := 10

/-- `most_similar` with `topn` unset. -/
noncomputable def most_similar_default (t : WordTable) (pos neg : List String) :
    Option (List (String × ℝ)) :=
  most_similar t pos neg default_topn

/-- Modelled from the spec: the 3CosMul score — product of rescaled cosine
similarities to the positive words divided by the product for the negative
words. -/
noncomputable def cosmulScore (pvs nvs : List (List ℝ)) (v : List ℝ) : ℝ :=
  (pvs.map fun p => (1 + cosineD v p) / 2).prod /
    (nvs.map fun p => (1 + cosineD v p) / 2).prod

/-- Modelled from the spec: `wv.most_similar_cosmul` — the multiplicative
(3CosMul) analogy variant. -/
noncomputable def most_similar_cosmul (t : WordTable) (pos neg : List String)
    (topn : ℕ) : Option (List (String × ℝ)) := do
  let pvs ← pos.mapM (vector_of t)
  let nvs ← neg.mapM (vector_of t)
  pure ((rankBy t (pos ++ neg) (cosmulScore pvs nvs)).take topn)

/-- `most_similar_cosmul` with `topn` unset. -/
noncomputable def most_similar_cosmul_default (t : WordTable)
    (pos neg : List String) : Option (List (String × ℝ)) :=
  most_similar_cosmul t pos neg default_topn

/-- Modelled from the spec: `wv.doesnt_match` — returns the input word whose
vector has the lowest cosine similarity to the average vector of all input
words. -/
noncomputable def doesnt_match (t : WordTable) (words : List String) :
    Option String := do
  let vs ← words.mapM (vector_of t)
  let m := vmean vs
  let scored := (words.zip vs).map fun p => (p.1, cosineD p.2 m)
  (List.insertionSort ascOn scored).head?.map Prod.fst

/-! ## Helper lemmas: sparse vectors and cosine similarity -/

theorem getVal_cons (p : ℕ × ℝ) (v : SparseR) (f : ℕ) :
    getVal (p :: v) f = (if p.1 = f then p.2 else 0) + getVal v f := by
  by_cases h : p.1 = f <;> simp [getVal, List.filter_cons, h]

theorem getVal_scale (v : SparseR) (a : ℝ) (f : ℕ) :
    getVal (v.map fun p => (p.1, p.2 / a)) f = getVal v f / a := by
  induction v with
  | nil => simp [getVal]
  | cons p v ih =>
      simp only [List.map_cons, getVal_cons]
      rw [ih]
      by_cases h : p.1 = f <;> simp [h, add_div]

theorem dotS_cons (p : ℕ × ℝ) (u v : SparseR) :
    dotS (p :: u) v = p.2 * getVal v p.1 + dotS u v := by
  simp [dotS]

theorem dotS_scale (u v : SparseR) (a b : ℝ) :
    dotS (u.map fun p => (p.1, p.2 / a)) (v.map fun p => (p.1, p.2 / b)) =
      dotS u v / (a * b) := by
  induction u with
  | nil => simp [dotS]
  | cons p u ih =>
      simp only [List.map_cons, dotS_cons]
      rw [ih, getVal_scale]
      ring

theorem div_div_same_cancel (x s c : ℝ) (hc : c ≠ 0) :
    (x / c) / (s / c) = x / s := by
  rcases eq_or_ne s 0 with h | h
  · simp [h]
  · field_simp

theorem sqrt_div_sq (x a : ℝ) (ha : 0 < a) :
    Real.sqrt (x / (a * a)) = Real.sqrt x / a := by
  rw [div_eq_mul_inv, Real.sqrt_mul' x (by positivity), Real.sqrt_inv,
    Real.sqrt_mul_self ha.le, div_eq_mul_inv]

theorem cosineSim_scale (u v : SparseR) (a b : ℝ) (ha : 0 < a) (hb : 0 < b) :
    cosineSim (u.map fun p => (p.1, p.2 / a)) (v.map fun p => (p.1, p.2 / b)) =
      cosineSim u v := by
  unfold cosineSim
  rw [dotS_scale, dotS_scale, dotS_scale, sqrt_div_sq _ _ ha, sqrt_div_sq _ _ hb]
  rw [show Real.sqrt (dotS u u) / a * (Real.sqrt (dotS v v) / b)
      = Real.sqrt (dotS u u) * Real.sqrt (dotS v v) / (a * b) by ring]
  exact div_div_same_cancel _ _ _ (by positivity)

theorem score_normCancel (lg : ℝ → ℝ) (n : ℕ) (df : ℕ → ℕ) (q d : SparseQ)
    (hq : 0 < l2normSq (tfidfWeights lg n df q))
    (hd : 0 < l2normSq (tfidfWeights lg n df d)) :
    cosineSim (tfidfTransform lg n df q) (tfidfTransform lg n df d) =
      cosineSim (tfidfWeights lg n df q) (tfidfWeights lg n df d) := by
  unfold tfidfTransform
  exact cosineSim_scale _ _ _ _ (Real.sqrt_pos.mpr hq) (Real.sqrt_pos.mpr hd)

theorem cosine_cmp (A B nq na nb : ℝ) (hA : 0 ≤ A) (hB : 0 < B) (hq : 0 < nq)
    (ha : 0 < na) (hb : 0 < nb) (h : A ^ 2 * nb < B ^ 2 * na) :
    A / (Real.sqrt nq * Real.sqrt na) < B / (Real.sqrt nq * Real.sqrt nb) := by
  have hsq : 0 < Real.sqrt nq := Real.sqrt_pos.mpr hq
  have key : A * Real.sqrt nb < B * Real.sqrt na := by
    have h1 : A * Real.sqrt nb = Real.sqrt (A ^ 2 * nb) := by
      rw [Real.sqrt_mul (by positivity) nb, Real.sqrt_sq hA]
    have h2 : B * Real.sqrt na = Real.sqrt (B ^ 2 * na) := by
      rw [Real.sqrt_mul (by positivity) na, Real.sqrt_sq hB.le]
    rw [h1, h2]
    exact Real.sqrt_lt_sqrt (by positivity) h
  rw [div_lt_div_iff₀ (by positivity) (by positivity)]
  calc A * (Real.sqrt nq * Real.sqrt nb)
      = Real.sqrt nq * (A * Real.sqrt nb) := by ring
    _ < Real.sqrt nq * (B * Real.sqrt na) := mul_lt_mul_of_pos_left key hsq
    _ = B * (Real.sqrt nq * Real.sqrt na) := by ring

theorem cosineSim_lt (u v w : SparseR) (hA : 0 ≤ dotS u v) (hB : 0 < dotS u w)
    (hq : 0 < dotS u u) (ha : 0 < dotS v v) (hb : 0 < dotS w w)
    (h : dotS u v ^ 2 * dotS w w < dotS u w ^ 2 * dotS v v) :
    cosineSim u v < cosineSim u w := by
  unfold cosineSim
  exact cosine_cmp _ _ _ _ _ hA hB hq ha hb h

theorem cosineSim_eq_zero (u v : SparseR) (h : dotS u v = 0) :
    cosineSim u v = 0 := by
  simp [cosineSim, h]

theorem cosineSim_pos (u v : SparseR) (hd : 0 < dotS u v) (hu : 0 < dotS u u)
    (hv : 0 < dotS v v) : 0 < cosineSim u v :=
  div_pos hd (mul_pos (Real.sqrt_pos.mpr hu) (Real.sqrt_pos.mpr hv))

/-! ## Document frequencies and raw TF-IDF weights of the toy corpus -/

theorem df_c0 : docFreq corpus 0 = 2 := rfl

theorem df_c1 : docFreq corpus 1 = 2 := rfl

theorem df_c2 : docFreq corpus 2 = 2 := rfl

theorem df_c3 : docFreq corpus 3 = 3 := rfl

theorem df_c4 : docFreq corpus 4 = 3 := rfl

theorem df_c5 : docFreq corpus 5 = 2 := rfl

theorem df_c6 : docFreq corpus 6 = 2 := rfl

theorem df_c7 : docFreq corpus 7 = 2 := rfl

theorem df_c8 : docFreq corpus 8 = 2 := rfl

theorem df_c9 : docFreq corpus 9 = 3 := rfl

theorem df_c10 : docFreq corpus 10 = 3 := rfl

theorem df_c11 : docFreq corpus 11 = 2 := rfl

theorem tw_query (lg : ℝ → ℝ) :
    tfidfWeights lg 9 (docFreq corpus) queryVec =
      [(0, lg (9 / 2)), (4, lg (9 / 3))] := by
  simp [tfidfWeights, queryVec, df_c0, df_c4]

theorem tw_doc0 (lg : ℝ → ℝ) :
    tfidfWeights lg 9 (docFreq corpus) [(0, 1), (1, 1), (2, 1)] =
      [(0, lg (9 / 2)), (1, lg (9 / 2)), (2, lg (9 / 2))] := by
  simp [tfidfWeights, df_c0, df_c1, df_c2]

theorem tw_doc1 (lg : ℝ → ℝ) :
    tfidfWeights lg 9 (docFreq corpus)
        [(2, 1), (3, 1), (4, 1), (5, 1), (6, 1), (8, 1)] =
      [(2, lg (9 / 2)), (3, lg (9 / 3)), (4, lg (9 / 3)), (5, lg (9 / 2)),
        (6, lg (9 / 2)), (8, lg (9 / 2))] := by
  simp [tfidfWeights, df_c2, df_c3, df_c4, df_c5, df_c6, df_c8]

theorem tw_doc2 (lg : ℝ → ℝ) :
    tfidfWeights lg 9 (docFreq corpus) [(1, 1), (3, 1), (4, 1), (7, 1)] =
      [(1, lg (9 / 2)), (3, lg (9 / 3)), (4, lg (9 / 3)), (7, lg (9 / 2))] := by
  simp [tfidfWeights, df_c1, df_c3, df_c4, df_c7]

theorem tw_doc3 (lg : ℝ → ℝ) :
    tfidfWeights lg 9 (docFreq corpus) [(0, 1), (4, 2), (7, 1)] =
      [(0, lg (9 / 2)), (4, 2 * lg (9 / 3)), (7, lg (9 / 2))] := by
  simp [tfidfWeights, df_c0, df_c4, df_c7]

theorem tw_doc4 (lg : ℝ → ℝ) :
    tfidfWeights lg 9 (docFreq corpus) [(3, 1), (5, 1), (6, 1)] =
      [(3, lg (9 / 3)), (5, lg (9 / 2)), (6, lg (9 / 2))] := by
  simp [tfidfWeights, df_c3, df_c5, df_c6]

theorem tw_doc5 (lg : ℝ → ℝ) :
    tfidfWeights lg 9 (docFreq corpus) [(9, 1)] = [(9, lg (9 / 3))] := by
  simp [tfidfWeights, df_c9]

theorem tw_doc6 (lg : ℝ → ℝ) :
    tfidfWeights lg 9 (docFreq corpus) [(9, 1), (10, 1)] =
      [(9, lg (9 / 3)), (10, lg (9 / 3))] := by
  simp [tfidfWeights, df_c9, df_c10]

theorem tw_doc7 (lg : ℝ → ℝ) :
    tfidfWeights lg 9 (docFreq corpus) [(9, 1), (10, 1), (11, 1)] =
      [(9, lg (9 / 3)), (10, lg (9 / 3)), (11, lg (9 / 2))] := by
  simp [tfidfWeights, df_c9, df_c10, df_c11]

theorem tw_doc8 (lg : ℝ → ℝ) :
    tfidfWeights lg 9 (docFreq corpus) [(8, 1), (10, 1), (11, 1)] =
      [(8, lg (9 / 2)), (10, lg (9 / 3)), (11, lg (9 / 2))] := by
  simp [tfidfWeights, df_c8, df_c10, df_c11]

/-! ## Pairwise score comparisons for the toy corpus, with abstract positive
idf weights `x` (for document frequency 2) and `y` (for document frequency 3) -/

theorem cmp_doc0 (x y : ℝ) (hx : 0 < x) (hy : 0 < y) :
    cosineSim [(0, x), (4, y)] [(0, x), (1, x), (2, x)] <
      cosineSim [(0, x), (4, y)] [(0, x), (4, 2 * y), (7, x)] := by
  have hx2 : 0 < x ^ 2 := pow_pos hx 2
  have hy2 : 0 < y ^ 2 := pow_pos hy 2
  apply cosineSim_lt <;> simp [dotS, getVal] <;>
    nlinarith [hx2, hy2, mul_pos hx2 hy2, mul_pos hx2 hx2, mul_pos hy2 hy2,
      mul_pos (mul_pos hx2 hx2) hx2, mul_pos (mul_pos hx2 hx2) hy2,
      mul_pos (mul_pos hx2 hy2) hy2, mul_pos (mul_pos hy2 hy2) hy2,
      mul_pos (mul_pos hy2 hy2) hx2]

theorem cmp_doc1 (x y : ℝ) (hx : 0 < x) (hy : 0 < y) :
    cosineSim [(0, x), (4, y)]
        [(2, x), (3, y), (4, y), (5, x), (6, x), (8, x)] <
      cosineSim [(0, x), (4, y)] [(0, x), (4, 2 * y), (7, x)] := by
  have hx2 : 0 < x ^ 2 := pow_pos hx 2
  have hy2 : 0 < y ^ 2 := pow_pos hy 2
  apply cosineSim_lt <;> simp [dotS, getVal] <;>
    nlinarith [hx2, hy2, mul_pos hx2 hy2, mul_pos hx2 hx2, mul_pos hy2 hy2,
      mul_pos (mul_pos hx2 hx2) hx2, mul_pos (mul_pos hx2 hx2) hy2,
      mul_pos (mul_pos hx2 hy2) hy2, mul_pos (mul_pos hy2 hy2) hy2,
      mul_pos (mul_pos hy2 hy2) hx2]

theorem cmp_doc2 (x y : ℝ) (hx : 0 < x) (hy : 0 < y) :
    cosineSim [(0, x), (4, y)] [(1, x), (3, y), (4, y), (7, x)] <
      cosineSim [(0, x), (4, y)] [(0, x), (4, 2 * y), (7, x)] := by
  have hx2 : 0 < x ^ 2 := pow_pos hx 2
  have hy2 : 0 < y ^ 2 := pow_pos hy 2
  apply cosineSim_lt <;> simp [dotS, getVal] <;>
    nlinarith [hx2, hy2, mul_pos hx2 hy2, mul_pos hx2 hx2, mul_pos hy2 hy2,
      mul_pos (mul_pos hx2 hx2) hx2, mul_pos (mul_pos hx2 hx2) hy2,
      mul_pos (mul_pos hx2 hy2) hy2, mul_pos (mul_pos hy2 hy2) hy2,
      mul_pos (mul_pos hy2 hy2) hx2]

theorem pos_doc3 (x y : ℝ) (hx : 0 < x) (hy : 0 < y) :
    0 < cosineSim [(0, x), (4, y)] [(0, x), (4, 2 * y), (7, x)] := by
  have hx2 : 0 < x ^ 2 := pow_pos hx 2
  have hy2 : 0 < y ^ 2 := pow_pos hy 2
  apply cosineSim_pos <;> simp [dotS, getVal] <;> nlinarith [hx2, hy2]

theorem zero_doc4 (x y : ℝ) :
    cosineSim [(0, x), (4, y)] [(3, y), (5, x), (6, x)] = 0 :=
  cosineSim_eq_zero _ _ (by simp [dotS, getVal])

theorem zero_doc5 (x y : ℝ) :
    cosineSim [(0, x), (4, y)] [(9, y)] = 0 :=
  cosineSim_eq_zero _ _ (by simp [dotS, getVal])

theorem zero_doc6 (x y : ℝ) :
    cosineSim [(0, x), (4, y)] [(9, y), (10, y)] = 0 :=
  cosineSim_eq_zero _ _ (by simp [dotS, getVal])

theorem zero_doc7 (x y : ℝ) :
    cosineSim [(0, x), (4, y)] [(9, y), (10, y), (11, x)] = 0 :=
  cosineSim_eq_zero _ _ (by simp [dotS, getVal])

theorem zero_doc8 (x y : ℝ) :
    cosineSim [(0, x), (4, y)] [(8, x), (10, y), (11, x)] = 0 :=
  cosineSim_eq_zero _ _ (by simp [dotS, getVal])

/-! ## The first four documents share a nonzero feature-id with the query -/

theorem shares_doc0 :
    sharesNonzeroFeature [(0, 1), (1, 1), (2, 1)] queryVec :=
  ⟨(0, 1), by simp, by norm_num, (0, 1), by simp [queryVec], rfl, by norm_num⟩

theorem shares_doc1 :
    sharesNonzeroFeature [(2, 1), (3, 1), (4, 1), (5, 1), (6, 1), (8, 1)]
      queryVec :=
  ⟨(4, 1), by simp, by norm_num, (4, 1), by simp [queryVec], rfl, by norm_num⟩

theorem shares_doc2 :
    sharesNonzeroFeature [(1, 1), (3, 1), (4, 1), (7, 1)] queryVec :=
  ⟨(4, 1), by simp, by norm_num, (4, 1), by simp [queryVec], rfl, by norm_num⟩

theorem shares_doc3 :
    sharesNonzeroFeature [(0, 1), (4, 2), (7, 1)] queryVec :=
  ⟨(0, 1), by simp, by norm_num, (0, 1), by simp [queryVec], rfl, by norm_num⟩

/-- C1: for the nine-document toy corpus and the query `[(0,1),(4,1)]`,
scoring the TF-IDF-transformed query against the similarity index returns one
cosine-similarity score per indexed document in construction order; document
3 scores strictly highest among all nine documents, and every document
sharing no nonzero feature-id with the query scores exactly 0.0.  The only
hypotheses are that the implementation-defined logarithm is positive at the
two occurring inverse-document-frequency ratios 9/2 and 9/3 (true for any
log base greater than 1). -/
theorem claim_C1 (lg : ℝ → ℝ) (hx : 0 < lg (9 / 2)) (hy : 0 < lg (9 / 3)) :
    notebookScores lg =
        corpus.map
          (fun d => cosineSim (notebookTfidf lg queryVec) (notebookTfidf lg d)) ∧
      (notebookScores lg).length = 9 ∧
      (∀ i, i < 9 → i ≠ 3 →
        (notebookScores lg).getD i 0 < (notebookScores lg).getD 3 0) ∧
      (∀ i, i < 9 → ¬sharesNonzeroFeature (corpus.getD i []) queryVec →
        (notebookScores lg).getD i 0 = 0) := by
  have hx2 : 0 < lg (9 / 2) ^ 2 := pow_pos hx 2
  have hy2 : 0 < lg (9 / 3) ^ 2 := pow_pos hy 2
  have hnq : 0 < l2normSq (tfidfWeights lg 9 (docFreq corpus) queryVec) := by
    rw [tw_query]
    simp only [l2normSq, List.map_cons, List.map_nil, List.sum_cons,
      List.sum_nil]
    nlinarith [hx2, hy2]
  have hn0 : 0 < l2normSq (tfidfWeights lg 9 (docFreq corpus)
      [(0, 1), (1, 1), (2, 1)]) := by
    rw [tw_doc0]
    simp only [l2normSq, List.map_cons, List.map_nil, List.sum_cons,
      List.sum_nil]
    nlinarith [hx2, hy2]
  have hn1 : 0 < l2normSq (tfidfWeights lg 9 (docFreq corpus)
      [(2, 1), (3, 1), (4, 1), (5, 1), (6, 1), (8, 1)]) := by
    rw [tw_doc1]
    simp only [l2normSq, List.map_cons, List.map_nil, List.sum_cons,
      List.sum_nil]
    nlinarith [hx2, hy2]
  have hn2 : 0 < l2normSq (tfidfWeights lg 9 (docFreq corpus)
      [(1, 1), (3, 1), (4, 1), (7, 1)]) := by
    rw [tw_doc2]
    simp only [l2normSq, List.map_cons, List.map_nil, List.sum_cons,
      List.sum_nil]
    nlinarith [hx2, hy2]
  have hn3 : 0 < l2normSq (tfidfWeights lg 9 (docFreq corpus)
      [(0, 1), (4, 2), (7, 1)]) := by
    rw [tw_doc3]
    simp only [l2normSq, List.map_cons, List.map_nil, List.sum_cons,
      List.sum_nil]
    nlinarith [hx2, hy2]
  have hn4 : 0 < l2normSq (tfidfWeights lg 9 (docFreq corpus)
      [(3, 1), (5, 1), (6, 1)]) := by
    rw [tw_doc4]
    simp only [l2normSq, List.map_cons, List.map_nil, List.sum_cons,
      List.sum_nil]
    nlinarith [hx2, hy2]
  have hn5 : 0 < l2normSq (tfidfWeights lg 9 (docFreq corpus) [(9, 1)]) := by
    rw [tw_doc5]
    simp only [l2normSq, List.map_cons, List.map_nil, List.sum_cons,
      List.sum_nil]
    nlinarith [hx2, hy2]
  have hn6 : 0 < l2normSq (tfidfWeights lg 9 (docFreq corpus)
      [(9, 1), (10, 1)]) := by
    rw [tw_doc6]
    simp only [l2normSq, List.map_cons, List.map_nil, List.sum_cons,
      List.sum_nil]
    nlinarith [hx2, hy2]
  have hn7 : 0 < l2normSq (tfidfWeights lg 9 (docFreq corpus)
      [(9, 1), (10, 1), (11, 1)]) := by
    rw [tw_doc7]
    simp only [l2normSq, List.map_cons, List.map_nil, List.sum_cons,
      List.sum_nil]
    nlinarith [hx2, hy2]
  have hn8 : 0 < l2normSq (tfidfWeights lg 9 (docFreq corpus)
      [(8, 1), (10, 1), (11, 1)]) := by
    rw [tw_doc8]
    simp only [l2normSq, List.map_cons, List.map_nil, List.sum_cons,
      List.sum_nil]
    nlinarith [hx2, hy2]
  have s0 : cosineSim (notebookTfidf lg queryVec)
      (notebookTfidf lg [(0, 1), (1, 1), (2, 1)]) =
      cosineSim [(0, lg (9 / 2)), (4, lg (9 / 3))]
        [(0, lg (9 / 2)), (1, lg (9 / 2)), (2, lg (9 / 2))] := by
    unfold notebookTfidf
    rw [score_normCancel lg 9 (docFreq corpus) queryVec _ hnq hn0, tw_query,
      tw_doc0]
  have s1 : cosineSim (notebookTfidf lg queryVec)
      (notebookTfidf lg [(2, 1), (3, 1), (4, 1), (5, 1), (6, 1), (8, 1)]) =
      cosineSim [(0, lg (9 / 2)), (4, lg (9 / 3))]
        [(2, lg (9 / 2)), (3, lg (9 / 3)), (4, lg (9 / 3)), (5, lg (9 / 2)),
          (6, lg (9 / 2)), (8, lg (9 / 2))] := by
    unfold notebookTfidf
    rw [score_normCancel lg 9 (docFreq corpus) queryVec _ hnq hn1, tw_query,
      tw_doc1]
  have s2 : cosineSim (notebookTfidf lg queryVec)
      (notebookTfidf lg [(1, 1), (3, 1), (4, 1), (7, 1)]) =
      cosineSim [(0, lg (9 / 2)), (4, lg (9 / 3))]
        [(1, lg (9 / 2)), (3, lg (9 / 3)), (4, lg (9 / 3)),
          (7, lg (9 / 2))] := by
    unfold notebookTfidf
    rw [score_normCancel lg 9 (docFreq corpus) queryVec _ hnq hn2, tw_query,
      tw_doc2]
  have s3 : cosineSim (notebookTfidf lg queryVec)
      (notebookTfidf lg [(0, 1), (4, 2), (7, 1)]) =
      cosineSim [(0, lg (9 / 2)), (4, lg (9 / 3))]
        [(0, lg (9 / 2)), (4, 2 * lg (9 / 3)), (7, lg (9 / 2))] := by
    unfold notebookTfidf
    rw [score_normCancel lg 9 (docFreq corpus) queryVec _ hnq hn3, tw_query,
      tw_doc3]
  have s4 : cosineSim (notebookTfidf lg queryVec)
      (notebookTfidf lg [(3, 1), (5, 1), (6, 1)]) =
      cosineSim [(0, lg (9 / 2)), (4, lg (9 / 3))]
        [(3, lg (9 / 3)), (5, lg (9 / 2)), (6, lg (9 / 2))] := by
    unfold notebookTfidf
    rw [score_normCancel lg 9 (docFreq corpus) queryVec _ hnq hn4, tw_query,
      tw_doc4]
  have s5 : cosineSim (notebookTfidf lg queryVec)
      (notebookTfidf lg [(9, 1)]) =
      cosineSim [(0, lg (9 / 2)), (4, lg (9 / 3))] [(9, lg (9 / 3))] := by
    unfold notebookTfidf
    rw [score_normCancel lg 9 (docFreq corpus) queryVec _ hnq hn5, tw_query,
      tw_doc5]
  have s6 : cosineSim (notebookTfidf lg queryVec)
      (notebookTfidf lg [(9, 1), (10, 1)]) =
      cosineSim [(0, lg (9 / 2)), (4, lg (9 / 3))]
        [(9, lg (9 / 3)), (10, lg (9 / 3))] := by
    unfold notebookTfidf
    rw [score_normCancel lg 9 (docFreq corpus) queryVec _ hnq hn6, tw_query,
      tw_doc6]
  have s7 : cosineSim (notebookTfidf lg queryVec)
      (notebookTfidf lg [(9, 1), (10, 1), (11, 1)]) =
      cosineSim [(0, lg (9 / 2)), (4, lg (9 / 3))]
        [(9, lg (9 / 3)), (10, lg (9 / 3)), (11, lg (9 / 2))] := by
    unfold notebookTfidf
    rw [score_normCancel lg 9 (docFreq corpus) queryVec _ hnq hn7, tw_query,
      tw_doc7]
  have s8 : cosineSim (notebookTfidf lg queryVec)
      (notebookTfidf lg [(8, 1), (10, 1), (11, 1)]) =
      cosineSim [(0, lg (9 / 2)), (4, lg (9 / 3))]
        [(8, lg (9 / 2)), (10, lg (9 / 3)), (11, lg (9 / 2))] := by
    unfold notebookTfidf
    rw [score_normCancel lg 9 (docFreq corpus) queryVec _ hnq hn8, tw_query,
      tw_doc8]
  have hmap : notebookScores lg =
      corpus.map
        (fun d => cosineSim (notebookTfidf lg queryVec) (notebookTfidf lg d)) := by
    simp [notebookScores, simScores, notebookIndex, List.map_map,
      Function.comp]
  refine ⟨hmap, ?_, ?_, ?_⟩
  · rw [hmap]
    simp [corpus]
  · intro i hi hne
    rw [hmap]
    interval_cases i
    · simp only [corpus, List.map_cons, List.map_nil, List.getD_cons_zero,
        List.getD_cons_succ]
      rw [s0, s3]
      exact cmp_doc0 (lg (9 / 2)) (lg (9 / 3)) hx hy
    · simp only [corpus, List.map_cons, List.map_nil, List.getD_cons_zero,
        List.getD_cons_succ]
      rw [s1, s3]
      exact cmp_doc1 (lg (9 / 2)) (lg (9 / 3)) hx hy
    · simp only [corpus, List.map_cons, List.map_nil, List.getD_cons_zero,
        List.getD_cons_succ]
      rw [s2, s3]
      exact cmp_doc2 (lg (9 / 2)) (lg (9 / 3)) hx hy
    · exact absurd rfl hne
    · simp only [corpus, List.map_cons, List.map_nil, List.getD_cons_zero,
        List.getD_cons_succ]
      rw [s4, s3, zero_doc4]
      exact pos_doc3 (lg (9 / 2)) (lg (9 / 3)) hx hy
    · simp only [corpus, List.map_cons, List.map_nil, List.getD_cons_zero,
        List.getD_cons_succ]
      rw [s5, s3, zero_doc5]
      exact pos_doc3 (lg (9 / 2)) (lg (9 / 3)) hx hy
    · simp only [corpus, List.map_cons, List.map_nil, List.getD_cons_zero,
        List.getD_cons_succ]
      rw [s6, s3, zero_doc6]
      exact pos_doc3 (lg (9 / 2)) (lg (9 / 3)) hx hy
    · simp only [corpus, List.map_cons, List.map_nil, List.getD_cons_zero,
        List.getD_cons_succ]
      rw [s7, s3, zero_doc7]
      exact pos_doc3 (lg (9 / 2)) (lg (9 / 3)) hx hy
    · simp only [corpus, List.map_cons, List.map_nil, List.getD_cons_zero,
        List.getD_cons_succ]
      rw [s8, s3, zero_doc8]
      exact pos_doc3 (lg (9 / 2)) (lg (9 / 3)) hx hy
  · intro i hi hns
    rw [hmap]
    interval_cases i
    · refine absurd ?_ hns
      simp only [corpus, List.getD_cons_zero, List.getD_cons_succ]
      exact shares_doc0
    · refine absurd ?_ hns
      simp only [corpus, List.getD_cons_zero, List.getD_cons_succ]
      exact shares_doc1
    · refine absurd ?_ hns
      simp only [corpus, List.getD_cons_zero, List.getD_cons_succ]
      exact shares_doc2
    · refine absurd ?_ hns
      simp only [corpus, List.getD_cons_zero, List.getD_cons_succ]
      exact shares_doc3
    · simp only [corpus, List.map_cons, List.map_nil, List.getD_cons_zero,
        List.getD_cons_succ]
      rw [s4]
      exact zero_doc4 (lg (9 / 2)) (lg (9 / 3))
    · simp only [corpus, List.map_cons, List.map_nil, List.getD_cons_zero,
        List.getD_cons_succ]
      rw [s5]
      exact zero_doc5 (lg (9 / 2)) (lg (9 / 3))
    · simp only [corpus, List.map_cons, List.map_nil, List.getD_cons_zero,
        List.getD_cons_succ]
      rw [s6]
      exact zero_doc6 (lg (9 / 2)) (lg (9 / 3))
    · simp only [corpus, List.map_cons, List.map_nil, List.getD_cons_zero,
        List.getD_cons_succ]
      rw [s7]
      exact zero_doc7 (lg (9 / 2)) (lg (9 / 3))
    · simp only [corpus, List.map_cons, List.map_nil, List.getD_cons_zero,
        List.getD_cons_succ]
      rw [s8]
      exact zero_doc8 (lg (9 / 2)) (lg (9 / 3))

/-- Witness for C1: the abstract logarithm instantiated with the constant
function 1, positive at both occurring idf arguments. -/
theorem claim_C1_witness :
    notebookScores (fun _ => 1) =
        corpus.map
          (fun d => cosineSim (notebookTfidf (fun _ => 1) queryVec)
            (notebookTfidf (fun _ => 1) d)) ∧
      (notebookScores (fun _ => 1)).length = 9 ∧
      (∀ i, i < 9 → i ≠ 3 →
        (notebookScores (fun _ => 1)).getD i 0 <
          (notebookScores (fun _ => 1)).getD 3 0) ∧
      (∀ i, i < 9 → ¬sharesNonzeroFeature (corpus.getD i []) queryVec →
        (notebookScores (fun _ => 1)).getD i 0 = 0) :=
  claim_C1 (fun _ => 1) one_pos one_pos

/-- C9: The TF-IDF transform is deterministic — a pure function of the corpus
statistics (document count and document frequencies) and the input vector:
equal statistics and equal inputs yield identical output. -/
theorem claim_C9 (lg : ℝ → ℝ) (n₁ n₂ : ℕ) (df₁ df₂ : ℕ → ℕ)
    (v₁ v₂ : SparseQ) (hn : n₁ = n₂) (hdf : ∀ f, df₁ f = df₂ f)
    (hv : v₁ = v₂) :
    tfidfTransform lg n₁ df₁ v₁ = tfidfTransform lg n₂ df₂ v₂ := by
  subst hn hv
  have h : df₁ = df₂ := funext hdf
  subst h
  rfl

/-- Witness for C9 at the notebook's own corpus statistics and query. -/
theorem claim_C9_witness :
    tfidfTransform (fun t => t) 9 (docFreq corpus) queryVec =
      tfidfTransform (fun t => t) 9 (docFreq corpus) queryVec :=
  claim_C9 (fun t => t) 9 9 (docFreq corpus) (docFreq corpus) queryVec
    queryVec rfl (fun _ => rfl) rfl

/-- C10: the similarity index is immutable — running any sequence of queries
leaves the index unchanged, the answers are exactly the scores against the
original index, and any later query returns the same scores it would have
returned before. -/
theorem claim_C10 (idx : SparseMatrixSimilarity) (qs : List SparseR) :
    (runQueries idx qs).2 = idx ∧
      (runQueries idx qs).1 = qs.map (simScores idx) ∧
      ∀ q, simScores (runQueries idx qs).2 q = simScores idx q := by
  induction qs with
  | nil => exact ⟨rfl, rfl, fun q => rfl⟩
  | cons q qs ih =>
      refine ⟨?_, ?_, ?_⟩
      · simpa [runQueries, scoreQuery] using ih.1
      · simp only [runQueries, scoreQuery, List.map_cons]
        exact congrArg (List.cons (simScores idx q)) ih.2.1
      · intro r
        simp only [runQueries, scoreQuery]
        exact ih.2.2 r

/-! ## Helper lemmas: the word table and its query operations -/

theorem ddot_comm (u v : List ℝ) : ddot u v = ddot v u := by
  unfold ddot
  rw [List.zipWith_comm_of_comm _ mul_comm]

theorem cosineD_comm (u v : List ℝ) : cosineD u v = cosineD v u := by
  unfold cosineD
  rw [ddot_comm u v, mul_comm]

theorem lookup_isSome_iff (t : WordTable) (w : String) :
    (t.lookup w).isSome = true ↔ w ∈ keysOf t := by
  induction t with
  | nil => simp [keysOf, List.lookup]
  | cons p t ih =>
      rcases p with ⟨k, v⟩
      by_cases h : w = k
      · subst h
        simp [List.lookup, keysOf]
      · simp only [List.lookup, beq_eq_false_iff_ne.mpr h, ih]
        simp [keysOf, h]

theorem mem_of_lookup_eq_some (t : WordTable) (w : String) (v : List ℝ)
    (h : t.lookup w = some v) : (w, v) ∈ t := by
  induction t with
  | nil => simp [List.lookup] at h
  | cons p t ih =>
      rcases p with ⟨k, u⟩
      by_cases hk : w = k
      · subst hk
        simp [List.lookup] at h
        simp [h]
      · simp only [List.lookup, beq_eq_false_iff_ne.mpr hk] at h
        exact List.mem_cons_of_mem _ (ih h)

theorem lookup_eq_some_of_mem_nodup (t : WordTable) (w : String)
    (v : List ℝ) (hnd : (keysOf t).Nodup) (hm : (w, v) ∈ t) :
    t.lookup w = some v := by
  induction t with
  | nil => cases hm
  | cons p t ih =>
      rcases p with ⟨k, u⟩
      have hnd2 : k ∉ keysOf t ∧ (keysOf t).Nodup := by
        simpa [keysOf, List.nodup_cons] using hnd
      rcases List.mem_cons.mp hm with he | hm2
      · rw [Prod.mk.injEq] at he
        obtain ⟨rfl, rfl⟩ := he
        simp [List.lookup]
      · have hk : w ≠ k := by
          rintro rfl
          exact hnd2.1 (List.mem_map_of_mem Prod.fst hm2)
        simp only [List.lookup, beq_eq_false_iff_ne.mpr hk]
        exact ih hnd2.2 hm2

theorem mapM_option_isSome {α β : Type} (f : α → Option β) (l : List α) :
    (l.mapM f).isSome = true ↔ ∀ a ∈ l, (f a).isSome = true := by
  induction l with
  | nil =>
      rw [List.mapM_nil]
      simp
  | cons a l ih =>
      rw [List.mapM_cons, List.forall_mem_cons, ← ih]
      cases h : f a with
      | none => simp
      | some b =>
          cases h2 : l.mapM f with
          | none => simp
          | some bs => simp

theorem mapM_option_length {α β : Type} (f : α → Option β) :
    ∀ (l : List α) (bs : List β), l.mapM f = some bs → bs.length = l.length := by
  intro l
  induction l with
  | nil =>
      intro bs h
      rw [List.mapM_nil] at h
      cases h
      rfl
  | cons a l ih =>
      intro bs h
      rw [List.mapM_cons] at h
      cases ha : f a with
      | none => rw [ha] at h; simp at h
      | some b =>
          rw [ha] at h
          cases hm : l.mapM f with
          | none => rw [hm] at h; simp at h
          | some cs =>
              rw [hm] at h
              simp only [Option.bind_eq_bind, Option.some_bind,
                Option.pure_def, Option.some_inj] at h
              subst h
              simp [ih cs hm]

theorem isSome_option_map {α β : Type} (f : α → β) (o : Option α) :
    (o.map f).isSome = o.isSome := by
  cases o <;> rfl

theorem vecOf_isSome_iff (t : WordTable) (ws : List String) :
    (ws.mapM (vector_of t)).isSome = true ↔ ∀ w ∈ ws, w ∈ keysOf t := by
  rw [mapM_option_isSome]
  exact ⟨fun h w hw => (lookup_isSome_iff t w).mp (h w hw),
    fun h w hw => (lookup_isSome_iff t w).mpr (h w hw)⟩

/-! ## General properties of the TF-IDF transform (the statable content of
the spec's transform contract: unit norm, sparsity, order preservation) -/

theorem l2normSq_cons (p : ℕ × ℝ) (v : SparseR) :
    l2normSq (p :: v) = p.2 ^ 2 + l2normSq v := by
  simp [l2normSq]

theorem l2normSq_map_div (v : SparseR) (a : ℝ) :
    l2normSq (v.map fun p => (p.1, p.2 / a)) = l2normSq v / a ^ 2 := by
  induction v with
  | nil => simp [l2normSq]
  | cons p v ih =>
      rw [List.map_cons, l2normSq_cons, l2normSq_cons, ih]
      ring

/-- The TF-IDF output is L2-normalized to Euclidean norm 1 whenever the raw
weight vector is nonzero. -/
theorem tfidf_norm_one (lg : ℝ → ℝ) (n : ℕ) (df : ℕ → ℕ) (doc : SparseQ)
    (hpos : 0 < l2normSq (tfidfWeights lg n df doc)) :
    l2normSq (tfidfTransform lg n df doc) = 1 := by
  unfold tfidfTransform
  rw [l2normSq_map_div, Real.sq_sqrt hpos.le, div_self hpos.ne']

/-- A feature-id with zero corpus-wide document frequency is never emitted. -/
theorem tfidf_no_zero_df (lg : ℝ → ℝ) (n : ℕ) (df : ℕ → ℕ) (doc : SparseQ) :
    ∀ p ∈ tfidfTransform lg n df doc, df p.1 ≠ 0 := by
  intro p hp
  unfold tfidfTransform tfidfWeights at hp
  rcases List.mem_map.mp hp with ⟨q, hq, rfl⟩
  rcases List.mem_map.mp hq with ⟨r, hr, rfl⟩
  have hf := (List.mem_filter.mp hr).2
  simpa using hf

/-- The transform preserves strictly ascending feature-id order. -/
theorem tfidf_id_order (lg : ℝ → ℝ) (n : ℕ) (df : ℕ → ℕ) (doc : SparseQ)
    (hasc : doc.Pairwise fun p q => p.1 < q.1) :
    (tfidfTransform lg n df doc).Pairwise fun p q => p.1 < q.1 := by
  unfold tfidfTransform tfidfWeights
  rw [List.pairwise_map, List.pairwise_map]
  exact hasc.filter _

/-- C3: for every word-vector table and every pair of words, `similarity`
is exactly symmetric (also when a word is missing, where both sides fail
identically); in particular it is symmetric for every pair of words present
in the loaded vocabulary. -/
theorem claim_C3 (t : WordTable) (a b : String) :
    similarity t a b = similarity t b a := by
  unfold similarity
  cases ha : vector_of t a <;> cases hb : vector_of t b <;>
    simp [cosineD_comm]

/-- C8: every embedding-query operation fails (returns `none`) exactly when
some referenced word is missing from the vocabulary, and `vector_of` returns
the stored dense vector when the word is present. -/
theorem claim_C8 :
    (∀ (t : WordTable) (w : String),
        (vector_of t w).isSome = true ↔ w ∈ keysOf t) ∧
      (∀ (t : WordTable) (w : String) (v : List ℝ),
        (keysOf t).Nodup → (w, v) ∈ t → vector_of t w = some v) ∧
      (∀ (t : WordTable) (a b : String),
        (similarity t a b).isSome = true ↔ a ∈ keysOf t ∧ b ∈ keysOf t) ∧
      (∀ (t : WordTable) (pos neg : List String) (n : ℕ),
        (most_similar t pos neg n).isSome = true ↔
          ∀ w ∈ pos ++ neg, w ∈ keysOf t) ∧
      (∀ (t : WordTable) (pos neg : List String) (n : ℕ),
        (most_similar_cosmul t pos neg n).isSome = true ↔
          ∀ w ∈ pos ++ neg, w ∈ keysOf t) ∧
      (∀ (t : WordTable) (ws : List String),
        (doesnt_match t ws).isSome = true ↔
          ws ≠ [] ∧ ∀ w ∈ ws, w ∈ keysOf t) := by
  refine ⟨fun t w => lookup_isSome_iff t w,
    fun t w v hnd hm => lookup_eq_some_of_mem_nodup t w v hnd hm,
    ?_, ?_, ?_, ?_⟩
  · intro t a b
    rw [← lookup_isSome_iff t a, ← lookup_isSome_iff t b]
    unfold similarity vector_of
    cases t.lookup a <;> cases t.lookup b <;> simp
  · intro t pos neg n
    rw [List.forall_mem_append, ← vecOf_isSome_iff t pos,
      ← vecOf_isSome_iff t neg]
    unfold most_similar
    cases hp : pos.mapM (vector_of t) <;>
      cases hn : neg.mapM (vector_of t) <;> simp
  · intro t pos neg n
    rw [List.forall_mem_append, ← vecOf_isSome_iff t pos,
      ← vecOf_isSome_iff t neg]
    unfold most_similar_cosmul
    cases hp : pos.mapM (vector_of t) <;>
      cases hn : neg.mapM (vector_of t) <;> simp
  · intro t ws
    rw [← vecOf_isSome_iff t ws]
    unfold doesnt_match
    cases hm : ws.mapM (vector_of t) with
    | none => simp
    | some vs =>
        have hlen : vs.length = ws.length := mapM_option_length _ ws vs hm
        simp only [Option.bind_eq_bind, Option.some_bind, isSome_option_map,
          List.head?_isSome, Option.isSome_some, and_true]
        constructor
        · rintro hne rfl
          simp [List.insertionSort] at hne
        · intro hne hcon
          have hl : ((ws.zip vs).map
              fun p => (p.1, cosineD p.2 (vmean vs))).length = 0 := by
            rw [← (List.perm_insertionSort ascOn _).length_eq, hcon]
            rfl
          rw [List.length_map, List.length_zip, hlen] at hl
          simp at hl
          exact hne hl

theorem head_of_sorted_strict_max (l : List (String × ℝ)) (e : String × ℝ)
    (hs : l.Sorted descOn) (he : e ∈ l)
    (hbest : ∀ a ∈ l, a ≠ e → a.2 < e.2) : l.head? = some e := by
  cases l with
  | nil => cases he
  | cons h tl =>
      rcases List.mem_cons.mp he with he2 | hmem2
      · rw [he2]
        rfl
      · by_cases hhe : h = e
        · rw [hhe]
          rfl
        · have hr : descOn h e := (List.sorted_cons.mp hs).1 e hmem2
          have hlt : h.2 < e.2 := hbest h (List.mem_cons_self h tl) hhe
          exact absurd hr (not_le.mpr hlt)

theorem head_of_sorted_strict_min (l : List (String × ℝ)) (e : String × ℝ)
    (hs : l.Sorted ascOn) (he : e ∈ l)
    (hbest : ∀ a ∈ l, a ≠ e → e.2 < a.2) : l.head? = some e := by
  cases l with
  | nil => cases he
  | cons h tl =>
      rcases List.mem_cons.mp he with he2 | hmem2
      · rw [he2]
        rfl
      · by_cases hhe : h = e
        · rw [hhe]
          rfl
        · have hr : ascOn h e := (List.sorted_cons.mp hs).1 e hmem2
          have hlt : e.2 < h.2 := hbest h (List.mem_cons_self h tl) hhe
          exact absurd hr (not_le.mpr hlt)

theorem take_one_of_head (l : List (String × ℝ)) (e : String × ℝ)
    (h : l.head? = some e) : l.take 1 = [e] := by
  rw [List.take_one, h]
  rfl

theorem rankBy_length (t : WordTable) (ex : List String)
    (sc : List ℝ → ℝ) :
    (rankBy t ex sc).length =
      (t.filter fun p => !(ex.contains p.1)).length := by
  unfold rankBy
  rw [(List.perm_insertionSort _ _).length_eq, List.length_map]

theorem rankBy_sorted (t : WordTable) (ex : List String)
    (sc : List ℝ → ℝ) : (rankBy t ex sc).Sorted descOn :=
  List.sorted_insertionSort _ _

theorem rankBy_mem (t : WordTable) (ex : List String) (sc : List ℝ → ℝ)
    (a : String × ℝ) (ha : a ∈ rankBy t ex sc) :
    ∃ p ∈ t, p.1 ∉ ex ∧ a = (p.1, sc p.2) := by
  unfold rankBy at ha
  have ha2 := (List.perm_insertionSort _ _).subset ha
  rcases List.mem_map.mp ha2 with ⟨p, hp, hpa⟩
  rcases List.mem_filter.mp hp with ⟨hpt, hpex⟩
  refine ⟨p, hpt, ?_, hpa.symm⟩
  simpa using hpex

theorem rankBy_mem_of (t : WordTable) (ex : List String) (sc : List ℝ → ℝ)
    (p : String × List ℝ) (hp : p ∈ t) (hpex : p.1 ∉ ex) :
    (p.1, sc p.2) ∈ rankBy t ex sc := by
  unfold rankBy
  refine (List.perm_insertionSort _ _).mem_iff.mpr ?_
  refine List.mem_map_of_mem _ (List.mem_filter.mpr ⟨hp, ?_⟩)
  simpa using hpex

/-- C4: `most_similar(positive=['king','women'], negative=['men'], topn=1)`
returns exactly one (word, score) result whose word is `'queen'`.  The
pre-trained table is an external artifact, so it is a parameter constrained
by the property the spec records: queen's vector is the strict argmax of
cosine similarity to the combined vector among non-input vocabulary words. -/
theorem claim_C4 (t : WordTable) (kv womenv menv qv : List ℝ)
    (hk : vector_of t "king" = some kv)
    (hw : vector_of t "women" = some womenv)
    (hm : vector_of t "men" = some menv)
    (hq : vector_of t "queen" = some qv)
    (hnd : (keysOf t).Nodup)
    (hbest : ∀ p ∈ t, p.1 ∉ (["king", "women", "men"] : List String) →
      p.1 ≠ "queen" →
      cosineD (combineVec [kv, womenv] [menv]) p.2 <
        cosineD (combineVec [kv, womenv] [menv]) qv) :
    most_similar t ["king", "women"] ["men"] 1 =
      some [("queen", cosineD (combineVec [kv, womenv] [menv]) qv)] := by
  have hqmem : ("queen", qv) ∈ t := mem_of_lookup_eq_some t "queen" qv hq
  unfold most_similar
  rw [List.mapM_cons, List.mapM_cons, List.mapM_cons, List.mapM_nil,
    hk, hw, hm]
  simp only [Option.bind_eq_bind, Option.some_bind, Option.pure_def,
    Option.some_inj, List.cons_append, List.nil_append]
  apply take_one_of_head
  apply head_of_sorted_strict_max _ _ (rankBy_sorted t _ _)
  · exact rankBy_mem_of t _ _ ("queen", qv) hqmem (by simp)
  · intro a ha hne
    rcases rankBy_mem t _ _ a ha with ⟨p, hpt, hpex, rfl⟩
    by_cases hqp : p.1 = "queen"
    · exfalso
      apply hne
      have hq2 : t.lookup "queen" = some qv := hq
      have hl : t.lookup p.1 = some p.2 :=
        lookup_eq_some_of_mem_nodup t p.1 p.2 hnd hpt
      rw [hqp] at hl
      have heq : p.2 = qv := Option.some_inj.mp (hl.symm.trans hq2)
      rw [hqp, heq]
    · exact hbest p hpt hpex hqp

/-- Witness for C8 at a one-word table, through the present-key conjunct. -/
theorem claim_C8_witness :
    vector_of [("house", [(1 : ℝ)])] "house" = some [(1 : ℝ)] :=
  claim_C8.2.1 [("house", [(1 : ℝ)])] "house" [(1 : ℝ)] (by decide)
    (List.mem_singleton.mpr rfl)

/-- Witness for C4: a four-word table in which queen is the only non-input
word, so the argmax hypothesis holds by case analysis. -/
theorem claim_C4_witness :
    most_similar
        [("king", [(1 : ℝ), 0, 0]), ("women", [0, 1, 0]), ("men", [0, 0, 1]),
          ("queen", [1, 1, -1])] ["king", "women"] ["men"] 1 =
      some [("queen",
        cosineD (combineVec [[(1 : ℝ), 0, 0], [0, 1, 0]] [[0, 0, 1]])
          [1, 1, -1])] :=
  claim_C4 _ _ _ _ _ rfl rfl rfl rfl (by decide) (by
    intro p hp hp1 hp2
    simp only [List.mem_cons, List.not_mem_nil, or_false] at hp
    rcases hp with rfl | rfl | rfl | rfl
    · exact absurd (by simp) hp1
    · exact absurd (by simp) hp1
    · exact absurd (by simp) hp1
    · exact absurd rfl hp2)

/-- C5: `most_similar(positive=['king','women'], negative=['men'], topn=3)`
returns a 3-element list of (word, score) pairs with non-increasing scores,
and none of the returned words is an input word — for any table containing
the three input words and at least three further candidate words. -/
theorem claim_C5 (t : WordTable) (kv womenv menv : List ℝ)
    (hk : vector_of t "king" = some kv)
    (hw : vector_of t "women" = some womenv)
    (hm : vector_of t "men" = some menv)
    (hcand : 3 ≤ (t.filter fun p =>
      !((["king", "women", "men"] : List String).contains p.1)).length) :
    ∃ l, most_similar t ["king", "women"] ["men"] 3 = some l ∧
      l.length = 3 ∧ l.Sorted descOn ∧
      ∀ p ∈ l, p.1 ∉ (["king", "women", "men"] : List String) := by
  unfold most_similar
  rw [List.mapM_cons, List.mapM_cons, List.mapM_cons, List.mapM_nil,
    hk, hw, hm]
  simp only [Option.bind_eq_bind, Option.some_bind, Option.pure_def,
    List.cons_append, List.nil_append]
  refine ⟨_, rfl, ?_, ?_, ?_⟩
  · rw [List.length_take, rankBy_length]
    omega
  · exact List.Pairwise.sublist (List.take_sublist _ _) (rankBy_sorted t _ _)
  · intro p hp
    have hp2 := List.mem_of_mem_take hp
    rcases rankBy_mem t _ _ p hp2 with ⟨q, hqt, hqex, rfl⟩
    exact hqex

/-- Witness for C5: a six-word table (three inputs, three candidates). -/
theorem claim_C5_witness :
    ∃ l, most_similar
        [("king", [(1 : ℝ)]), ("women", [1]), ("men", [1]), ("alpha", [1]),
          ("beta", [1]), ("gamma", [1])] ["king", "women"] ["men"] 3 =
        some l ∧
      l.length = 3 ∧ l.Sorted descOn ∧
      ∀ p ∈ l, p.1 ∉ (["king", "women", "men"] : List String) :=
  claim_C5 _ _ _ _ rfl rfl rfl (by decide)

/-- C6: with `topn` unset, both the additive and the multiplicative (3CosMul)
variants return the library-defined default number of results, and that
default is 10 — whenever the referenced words resolve and at least 10
candidate words remain. -/
theorem claim_C6 (t : WordTable) (pos neg : List String)
    (pvs nvs : List (List ℝ))
    (hp : pos.mapM (vector_of t) = some pvs)
    (hn : neg.mapM (vector_of t) = some nvs)
    (hcand : default_topn ≤ (t.filter fun p =>
      !((pos ++ neg).contains p.1)).length) :
    default_topn = 10 ∧
      (∃ l, most_similar_default t pos neg = some l ∧
        l.length = default_topn) ∧
      ∃ l, most_similar_cosmul_default t pos neg = some l ∧
        l.length = default_topn := by
  refine ⟨rfl, ?_, ?_⟩
  · unfold most_similar_default most_similar
    rw [hp, hn]
    simp only [Option.bind_eq_bind, Option.some_bind, Option.pure_def]
    refine ⟨_, rfl, ?_⟩
    rw [List.length_take, rankBy_length]
    simp only [default_topn] at hcand ⊢
    omega
  · unfold most_similar_cosmul_default most_similar_cosmul
    rw [hp, hn]
    simp only [Option.bind_eq_bind, Option.some_bind, Option.pure_def]
    refine ⟨_, rfl, ?_⟩
    rw [List.length_take, rankBy_length]
    simp only [default_topn] at hcand ⊢
    omega

/-- Witness for C6: one positive word, empty negative list, ten candidates. -/
theorem claim_C6_witness :
    default_topn = 10 ∧
      (∃ l, most_similar_default
          [("w0", [(1 : ℝ)]), ("w1", [1]), ("w2", [1]), ("w3", [1]),
            ("w4", [1]), ("w5", [1]), ("w6", [1]), ("w7", [1]), ("w8", [1]),
            ("w9", [1]), ("w10", [1])] ["w0"] [] = some l ∧
        l.length = default_topn) ∧
      ∃ l, most_similar_cosmul_default
          [("w0", [(1 : ℝ)]), ("w1", [1]), ("w2", [1]), ("w3", [1]),
            ("w4", [1]), ("w5", [1]), ("w6", [1]), ("w7", [1]), ("w8", [1]),
            ("w9", [1]), ("w10", [1])] ["w0"] [] = some l ∧
        l.length = default_topn :=
  claim_C6 _ ["w0"] [] _ _ rfl rfl (by decide)

/-- C7: `doesnt_match(['monday','tuesday','car','saturday'])` returns
`'car'` whenever the four words resolve and car's vector has the strictly
lowest cosine similarity to the average of the four vectors. -/
theorem claim_C7 (t : WordTable) (v1 v2 v3 v4 : List ℝ)
    (h : (["monday", "tuesday", "car", "saturday"] : List String).mapM
        (vector_of t) = some [v1, v2, v3, v4])
    (h1 : cosineD v3 (vmean [v1, v2, v3, v4]) <
      cosineD v1 (vmean [v1, v2, v3, v4]))
    (h2 : cosineD v3 (vmean [v1, v2, v3, v4]) <
      cosineD v2 (vmean [v1, v2, v3, v4]))
    (h4 : cosineD v3 (vmean [v1, v2, v3, v4]) <
      cosineD v4 (vmean [v1, v2, v3, v4])) :
    doesnt_match t ["monday", "tuesday", "car", "saturday"] = some "car" := by
  unfold doesnt_match
  rw [h]
  simp only [Option.bind_eq_bind, Option.some_bind, List.zip_cons_cons,
    List.zip_nil_left, List.map_cons, List.map_nil]
  have hmem : ("car", cosineD v3 (vmean [v1, v2, v3, v4])) ∈
      List.insertionSort ascOn
        [("monday", cosineD v1 (vmean [v1, v2, v3, v4])),
          ("tuesday", cosineD v2 (vmean [v1, v2, v3, v4])),
          ("car", cosineD v3 (vmean [v1, v2, v3, v4])),
          ("saturday", cosineD v4 (vmean [v1, v2, v3, v4]))] :=
    (List.perm_insertionSort _ _).mem_iff.mpr (by simp)
  have hbest : ∀ a ∈ List.insertionSort ascOn
      [("monday", cosineD v1 (vmean [v1, v2, v3, v4])),
        ("tuesday", cosineD v2 (vmean [v1, v2, v3, v4])),
        ("car", cosineD v3 (vmean [v1, v2, v3, v4])),
        ("saturday", cosineD v4 (vmean [v1, v2, v3, v4]))],
      a ≠ ("car", cosineD v3 (vmean [v1, v2, v3, v4])) →
      cosineD v3 (vmean [v1, v2, v3, v4]) < a.2 := by
    intro a ha hne
    have ha2 := (List.perm_insertionSort _ _).subset ha
    rcases List.mem_cons.mp ha2 with rfl | ha3
    · exact h1
    rcases List.mem_cons.mp ha3 with rfl | ha4
    · exact h2
    rcases List.mem_cons.mp ha4 with rfl | ha5
    · exact absurd rfl hne
    rcases List.mem_cons.mp ha5 with rfl | ha6
    · exact h4
    · cases ha6
  have hh := head_of_sorted_strict_min _ _
    (List.sorted_insertionSort ascOn _) hmem hbest
  rw [hh]
  rfl

/-- Witness for C7: three identical day vectors and an orthogonal car
vector; car's cosine to the mean vector is 1/4 over the norm, the days' is
3/4 over the same norm. -/
theorem claim_C7_witness :
    doesnt_match
        [("monday", [(1 : ℝ), 0]), ("tuesday", [1, 0]), ("car", [0, 1]),
          ("saturday", [1, 0])]
        ["monday", "tuesday", "car", "saturday"] = some "car" := by
  refine claim_C7 _ _ _ _ _ rfl ?_ ?_ ?_ <;>
    · have hmean : vmean [[(1 : ℝ), 0], [1, 0], [0, 1], [1, 0]] =
          [3 / 4, 1 / 4] := by
        norm_num [vmean, vsum, vadd]
      rw [hmean]
      have hdc : ddot [(0 : ℝ), 1] [3 / 4, 1 / 4] = 1 / 4 := by
        norm_num [ddot]
      have hdm : ddot [(1 : ℝ), 0] [3 / 4, 1 / 4] = 3 / 4 := by
        norm_num [ddot]
      have hcc : ddot [(0 : ℝ), 1] [0, 1] = 1 := by norm_num [ddot]
      have hmsq : ddot [(1 : ℝ), 0] [1, 0] = 1 := by norm_num [ddot]
      have hvv : ddot [(3 / 4 : ℝ), 1 / 4] [3 / 4, 1 / 4] = 5 / 8 := by
        norm_num [ddot]
      unfold cosineD
      rw [hdc, hdm, hcc, hmsq, hvv, Real.sqrt_one, one_mul]
      exact div_lt_div_of_pos_right (by norm_num)
        (Real.sqrt_pos.mpr (by norm_num))

end GensimNB
